import Mathlib

/-!
Verification of the query-time PII redaction pipeline
(`src/services/rag_pipeline/pii_masker.py`).

The Python code is shallowly embedded as follows:

* Text is a `List Char`; Python slices `text[:i]` / `text[j:]` are
  `List.take i` / `List.drop j` (both total, as Python slicing is).
* A detector span (spaCy `ent` or regex match) and an accepted entity
  record (`{'text','label','start','end'}`) are both the structure `Ent`;
  labels are the raw label strings (e.g. "CARDINAL").  The field `end`
  is called `stop` because `end` is a Lean keyword.
* The spaCy NER output and the regex-match lists are external inputs
  (spaCy and `re` are libraries, not repository code), so
  `pii_masker_func` is parameterised by `statSpans` (the label-filtered
  candidates from `doc.ents`) and `patternSpans` (the `re.finditer`
  matches, concatenated in the fixed rule order).
* Python dicts are insertion-ordered association lists; `entity_counter`
  is a total function from label strings to `Nat` (the source
  initialises every label it ever uses to `0`).
* The filesystem (the `mappings/entity_mappings.json` store) is an
  explicit state `FS`; `json.load` results are modelled by `Json`;
  I/O failure on the write path is an explicit `WriteOutcome` input;
  fallible Python functions return `Except PyErr _`.
-/

/-- An entity span: surface text, label string, and half-open character
offsets `[start, stop)` into the original text (source: the dicts pushed
onto `entities`, and spaCy/regex match objects). -/
structure Ent where
  text : List Char
  label : String
  start : Nat
  stop : Nat
deriving DecidableEq, Repr

/-- `entity_counter`: a Python dict from label string to count, with every
relevant label initialised to 0; modelled as a total function. -/
def zeroCounter : String → Nat := fun _ => 0

/-- Bump the counter of one label: `entity_counter[ent_label] += 1`. -/
def bumpCounter (c : String → Nat) (lab : String) : String → Nat :=
  fun l => if l = lab then c l + 1 else c l

/-- First-match association-list lookup, the semantics of looking a key up
in a Python dict whose keys are unique (dicts are modelled as
insertion-ordered key/value lists throughout). -/
def lookupA {κ β : Type} [DecidableEq κ] : List (κ × β) → κ → Option β
  | [], _ => none
  | (k, v) :: rest, t => if k = t then some v else lookupA rest t

/-- Total variant of `entity_map[key]` used by the rewrite step (the key
is always present there, which is proved separately). -/
def mapAt (em : List (List Char × List Char)) (t : List Char) : List Char :=
  (lookupA em t).getD []

/-- The f-string `f"[{ent_label}_{entity_counter[ent_label]}]"`. -/
def mkPlaceholder (lab : String) (n : Nat) : List Char :=
  '[' :: (lab.data ++ '_' :: (Nat.repr n).data ++ [']'])

/-- The allocation conditional shared by both detector loops:
`if ent_text not in entity_map: entity_counter[lab] += 1;
entity_map[ent_text] = f"[{lab}_{counter}]"`. -/
def allocStep (c : String → Nat) (em : List (List Char × List Char))
    (t : List Char) (lab : String) :
    (String → Nat) × List (List Char × List Char) :=
  match lookupA em t with
  | some _ => (c, em)
  | none => (bumpCounter c lab, em ++ [(t, mkPlaceholder lab (c lab + 1))])

/-- The mutable locals of `pii_masker_func` as one state record. -/
structure MaskState where
  entity_counter : String → Nat
  entity_map : List (List Char × List Char)
  entities : List Ent
  existing_spans : List (Nat × Nat)

/-- Initial state: zeroed counters, empty `entity_map`, `entities`,
`existing_spans`. -/
def initMaskState : MaskState :=
  { entity_counter := zeroCounter, entity_map := [], entities := [], existing_spans := [] }

/-- Accept one span: allocate a placeholder for its text if new, append it
to `entities`, and append its range to `existing_spans` (the common body
of both accepting branches in the source). -/
def acceptEnt (st : MaskState) (e : Ent) : MaskState :=
  let p := allocStep st.entity_counter st.entity_map e.text e.label
  { entity_counter := p.1
    entity_map := p.2
    entities := st.entities ++ [e]
    existing_spans := st.existing_spans ++ [(e.start, e.stop)] }

/-- `["CARDINAL", "MONEY", "PERCENT"]`: the label filter of Step 1. -/
def statLabels : List String := ["CARDINAL", "MONEY", "PERCENT"]

/-- Python `str.strip()` whitespace test (ASCII whitespace). -/
def isPySpace (c : Char) : Bool := c.isWhitespace

/-- Python `str.strip()` on a character list. -/
def pyStrip (l : List Char) : List Char :=
  ((l.dropWhile isPySpace).reverse.dropWhile isPySpace).reverse

/-- `ent_text = ent.text.strip()` applied to a statistical span; the
offsets stay those of the original span. -/
def stripEnt (e : Ent) : Ent :=
  { e with text := pyStrip e.text }

/-- Step 1 loop body (`for ent in doc.ents`): accept the span iff its
label is CARDINAL, MONEY or PERCENT, keying the map by the stripped
text. -/
def statStep (st : MaskState) (ent : Ent) : MaskState :=
  if ent.label ∈ statLabels then acceptEnt st (stripEnt ent) else st

/-- The source's overlap rejection test:
`any(not (end <= s or start >= e) for s, e in existing_spans)`. -/
def overlapsAny (spans : List (Nat × Nat)) (start stop : Nat) : Bool :=
  spans.any (fun p => !(decide (stop ≤ p.1) || decide (start ≥ p.2)))

/-- Step 2 loop body (`for match in re.finditer(...)`): skip the match if
it overlaps any occupied range, otherwise accept it (text is
`match.group(0)`, not stripped). -/
def patternStep (st : MaskState) (ent : Ent) : MaskState :=
  if overlapsAny st.existing_spans ent.start ent.stop then st
  else acceptEnt st ent

/-- Steps 1 and 2 of `pii_masker_func`: fold the statistical spans, then
the pattern spans, over the per-call state. -/
def maskRun (statSpans patternSpans : List Ent) : MaskState :=
  patternSpans.foldl patternStep (statSpans.foldl statStep initMaskState)

/-- Stable insertion of one entity into a start-descending list
(`sorted(entities, key=lambda x: x['start'], reverse=True)` is a stable
descending sort). -/
def insertByStartDesc (x : Ent) : List Ent → List Ent
  | [] => [x]
  | y :: ys => if x.start < y.start then y :: insertByStartDesc x ys else x :: y :: ys

/-- Stable sort by `start` descending. -/
def sortByStartDesc : List Ent → List Ent
  | [] => []
  | x :: xs => insertByStartDesc x (sortByStartDesc xs)

/-- One replacement: `text = text[:start] + entity_map[ent['text']] + text[end:]`. -/
def replaceOne (em : List (List Char × List Char)) (t : List Char) (e : Ent) :
    List Char :=
  t.take e.start ++ mapAt em e.text ++ t.drop e.stop

/-- Step 3 of `pii_masker_func`: sort accepted entities by `start`
descending and fold the slice-and-reassemble replacement over the text. -/
def rewriteMasked (t : List Char) (em : List (List Char × List Char))
    (es : List Ent) : List Char :=
  (sortByStartDesc es).foldl (replaceOne em) t

/-- The masked text produced by a call of `pii_masker_func` on `text`
with the given detector outputs (Steps 1-3; Step 4 is the persistence
side effect, modelled below). -/
def maskedText (text : List Char) (statSpans patternSpans : List Ent) :
    List Char :=
  let st := maskRun statSpans patternSpans
  rewriteMasked text st.entity_map st.entities

/-! ### The mapping store (`save_mapping_to_file` / `load_mapping_from_file`)

The store file `mappings/entity_mappings.json` holds JSON; `json.load`
either raises `JSONDecodeError` or yields a `Json` value.  The
filesystem state relevant to the module is whether the `mappings`
directory exists and what the store file holds.  `datetime.now()` is an
input (`now`); a disk/permission failure on the write path is the input
`WriteOutcome.ioError`. -/

/-- A parsed JSON value; objects are insertion-ordered key/value lists
(Python dict order). -/
inductive Json where
  | obj : List (String × Json) → Json
  | arr : List Json → Json
  | str : String → Json
  | num : Int → Json
  | jbool : Bool → Json
  | null : Json

/-- Python exceptions that can escape the modelled functions. -/
inductive PyErr where
  | osError
  | typeError
  | attributeError
deriving DecidableEq, Repr

/-- Contents of the store file: absent, present but not valid JSON
(`json.load` raises `JSONDecodeError`), or valid JSON. -/
inductive FileState where
  | absent
  | malformed
  | holds : Json → FileState

/-- The filesystem state the module touches. -/
structure FS where
  mappingsDir : Bool
  store : FileState

/-- Whether the environment lets the write path succeed (models
disk/permission failures of `os.makedirs` / `open(..., 'w')`). -/
inductive WriteOutcome where
  | ok
  | ioError
deriving DecidableEq, Repr

/-- Python `d[k] = v` on an insertion-ordered dict: replace the value in
place if the key exists, else append the pair. -/
def setEntry (base : List (String × Json)) (k : String) (v : Json) :
    List (String × Json) :=
  if base.any (fun e => decide (e.1 = k)) then
    base.map (fun e => if e.1 = k then (e.1, v) else e)
  else base ++ [(k, v)]

/-- Python `base.update(upd)`: set each pair of `upd` in order. -/
def dictUpdate (base upd : List (String × Json)) : List (String × Json) :=
  upd.foldl (fun acc kv => setEntry acc kv.1 kv.2) base

/-- An entity map as it is serialised into the store (string keys and
string placeholder values turned into JSON pairs). -/
def jsonOfMap (em : List (String × String)) : List (String × Json) :=
  em.map (fun kv => (kv.1, Json.str kv.2))

/-- `save_mapping_to_file(entity_map)`: ensure the `mappings` directory,
build `{"timestamp": now, "mappings": entity_map}`, merge into the
existing store if it parses and has a `"mappings"` key (only
`JSONDecodeError` and `KeyError` are caught), and write the file.  A
non-object store raises `TypeError` at `existing_data["mappings"]`; an
object whose `"mappings"` value is not an object raises
`AttributeError` at `.update`; neither is caught.  `datetime.now()` is
called twice in the source; both calls are modelled by the single
argument `now`. -/
def save_mapping_to_file (entity_map : List (String × String)) (now : String)
    (w : WriteOutcome) (fs : FS) : Except PyErr FS :=
  match w with
  | .ioError => .error .osError
  | .ok =>
    let fresh : List (String × Json) :=
      [("timestamp", Json.str now), ("mappings", Json.obj (jsonOfMap entity_map))]
    match fs.store with
    | .absent => .ok ⟨true, .holds (.obj fresh)⟩
    | .malformed => .ok ⟨true, .holds (.obj fresh)⟩
    | .holds j =>
      match j with
      | .obj fields =>
        match lookupA fields "mappings" with
        | none => .ok ⟨true, .holds (.obj fresh)⟩
        | some (.obj m) =>
          let m2 := dictUpdate m (jsonOfMap entity_map)
          let fields2 :=
            setEntry (setEntry fields "mappings" (Json.obj m2))
              "timestamp" (Json.str now)
          .ok ⟨true, .holds (.obj fields2)⟩
        | some _ => .error .attributeError
      | _ => .error .typeError

/-- `load_mapping_from_file()`: `{}` if the file does not exist, `{}` if
`json.load` raises `JSONDecodeError`, otherwise `data.get("mappings", {})`
(which raises `AttributeError` when the parsed value is not an object —
only `JSONDecodeError` and `FileNotFoundError` are caught). -/
def load_mapping_from_file (fs : FS) : Except PyErr Json :=
  match fs.store with
  | .absent => .ok (.obj [])
  | .malformed => .ok (.obj [])
  | .holds j =>
    match j with
    | .obj fields => .ok ((lookupA fields "mappings").getD (.obj []))
    | _ => .error .attributeError

/-- The per-call entity map, serialised for the store (keys and
placeholders become `String`s). -/
def storeEntries (em : List (List Char × List Char)) : List (String × String) :=
  em.map (fun kv => (String.mk kv.1, String.mk kv.2))

/-- `pii_masker_func(text)` with its external inputs made explicit:
Steps 1-3 compute the masked text, Step 4 persists the entity map (only
when it is non-empty) with no exception handling around the call, and the
masked text is returned.  Returns the masked text and resulting
filesystem state, or the propagated exception. -/
def pii_masker_func (text : List Char) (statSpans patternSpans : List Ent)
    (now : String) (w : WriteOutcome) (fs : FS) :
    Except PyErr (List Char × FS) :=
  let st := maskRun statSpans patternSpans
  let masked := rewriteMasked text st.entity_map st.entities
  if st.entity_map = [] then .ok (masked, fs)
  else
    match save_mapping_to_file (storeEntries st.entity_map) now w fs with
    | .ok fs2 => .ok (masked, fs2)
    | .error e => .error e

/-- The masked text a caller receives, when the call does not raise. -/
def resultText (r : Except PyErr (List Char × FS)) : Option (List Char) :=
  match r with
  | .ok p => some p.1
  | .error _ => none

/-- The `"mappings"` object of the persisted store, when the store holds
a JSON object. -/
def storeMappings (fs : FS) : Option Json :=
  match fs.store with
  | .holds (.obj fields) => lookupA fields "mappings"
  | _ => none

/-- The `"timestamp"` value of the persisted store, when the store holds
a JSON object. -/
def storeTimestamp (fs : FS) : Option Json :=
  match fs.store with
  | .holds (.obj fields) => lookupA fields "timestamp"
  | _ => none

/-! ### Derived notions used by the claims -/

/-- The half-open ranges `[a.start, a.stop)` and `[b.start, b.stop)`
intersect: `max start < min stop` holds exactly when some index lies in
both ranges. -/
def overlapR (a b : Ent) : Prop :=
  max a.start b.start < min a.stop b.stop

instance (a b : Ent) : Decidable (overlapR a b) := by
  unfold overlapR; infer_instance

/-- The occupied range recorded for an accepted entity. -/
def entRange (e : Ent) : Nat × Nat := (e.start, e.stop)

/-- Number of statistical spans that pass the Step 1 label filter —
the length of the statistical prefix of the accepted-entities list. -/
def statCount (statSpans : List Ent) : Nat :=
  (statSpans.filter (fun e => decide (e.label ∈ statLabels))).length

/-- Count of entities carrying a given label. -/
def countLabel (L : String) (ds : List Ent) : Nat :=
  (ds.filter (fun x => decide (x.label = L))).length

/-- The subsequence of first occurrences: keep an entity iff its text was
not seen before (`seen` accumulates the texts already encountered).
This is the order of first acceptance of distinct surface texts. -/
def distinctBy (seen : List (List Char)) : List Ent → List Ent
  | [] => []
  | e :: rest =>
    if e.text ∈ seen then distinctBy seen rest
    else e :: distinctBy (e.text :: seen) rest

/-- Texts seen after scanning a list, starting from `seen`. -/
def seenAfter (seen : List (List Char)) : List Ent → List (List Char)
  | [] => seen
  | e :: rest =>
    if e.text ∈ seen then seenAfter seen rest
    else seenAfter (e.text :: seen) rest

/-- First occurrences of distinct texts among the accepted entities. -/
def distinctEnts (es : List Ent) : List Ent := distinctBy [] es

/-- Reconstruction of the entity map from the first-acceptance sequence:
each entry pairs the text with the placeholder of its label's next
counter value.  Stated from the spec's description of the allocator
("the Nth distinct text of a given label receives `[LABEL_N]`"), to be
compared with the map the code builds. -/
def specMapGo (c : String → Nat) : List Ent → List (List Char × List Char)
  | [] => []
  | e :: rest =>
    (e.text, mkPlaceholder e.label (c e.label + 1)) ::
      specMapGo (bumpCounter c e.label) rest

/-- The keys of an association list. -/
def keysOf {κ β : Type} (l : List (κ × β)) : List κ :=
  l.map Prod.fst

/-- The segment decomposition produced by processing a start-descending
span list right-to-left: for each span, the part of the text strictly to
its left is rewritten recursively, the placeholder is inserted, and the
suffix from `stop` on is kept verbatim.  Unfolding it on a concrete
descending chain yields
`t[0:s_1] ++ ph_1 ++ t[e_1:s_2] ++ ph_2 ++ ... ++ t[e_k:]`:
every portion of the input outside the replaced ranges, unchanged and in
order. -/
def assembleDesc (em : List (List Char × List Char)) (t : List Char) :
    List Ent → List Char
  | [] => t
  | e :: rest =>
    assembleDesc em (t.take e.start) rest ++ mapAt em e.text ++ t.drop e.stop

/-! ### Infrastructure lemmas -/

/-- Sanity check: the concrete end-to-end scenario of the design's
testable properties evaluates as specified. -/
theorem maskedText_spec_scenario :
    maskedText
      ("Revenue grew 12% to $4.5 million, a 2x increase.").data
      [⟨("12%").data, "PERCENT", 13, 16⟩, ⟨("$4.5 million").data, "MONEY", 20, 32⟩]
      [⟨("2x").data, "RATIO", 36, 38⟩]
      = ("Revenue grew [PERCENT_1] to [MONEY_1], a [RATIO_1] increase.").data := by
  decide

/-- Fold preservation: an invariant preserved by each step holds after a
left fold. -/
theorem foldl_preserves {σ α : Type} (P : σ → Prop) (f : σ → α → σ)
    (h : ∀ s a, P s → P (f s a)) :
    ∀ (l : List α) (s : σ), P s → P (l.foldl f s) := by
  intro l
  induction l with
  | nil => intro s hs; exact hs
  | cons a l ih => intro s hs; exact ih (f s a) (h s a hs)

/-- Step 1 characterisation: folding the statistical spans appends the
stripped, label-filtered spans to `entities`. -/
theorem statFold_entities (statSpans : List Ent) :
    ∀ st : MaskState,
      (statSpans.foldl statStep st).entities =
        st.entities ++
          ((statSpans.filter (fun e => decide (e.label ∈ statLabels))).map stripEnt) := by
  induction statSpans with
  | nil => intro st; simp
  | cons e rest ih =>
    intro st
    simp only [List.foldl_cons, List.filter_cons]
    rw [ih]
    by_cases h : e.label ∈ statLabels
    · simp [statStep, h, acceptEnt]
    · simp [statStep, h]

/-- Step 1 characterisation for the occupied ranges. -/
theorem statFold_spans (statSpans : List Ent) :
    ∀ st : MaskState,
      (statSpans.foldl statStep st).existing_spans =
        st.existing_spans ++
          ((statSpans.filter (fun e => decide (e.label ∈ statLabels))).map entRange) := by
  induction statSpans with
  | nil => intro st; simp
  | cons e rest ih =>
    intro st
    simp only [List.foldl_cons, List.filter_cons]
    rw [ih]
    by_cases h : e.label ∈ statLabels
    · simp [statStep, h, acceptEnt, entRange, stripEnt]
    · simp [statStep, h]

/-- Both loops keep `existing_spans` equal to the ranges of the accepted
entities. -/
theorem maskRun_spans_eq (statSpans patternSpans : List Ent) :
    (maskRun statSpans patternSpans).existing_spans =
      (maskRun statSpans patternSpans).entities.map entRange := by
  unfold maskRun
  apply foldl_preserves
    (fun st : MaskState => st.existing_spans = st.entities.map entRange)
  · intro st e h
    unfold patternStep
    by_cases hov : overlapsAny st.existing_spans e.start e.stop
    · rw [if_pos hov]; exact h
    · rw [if_neg hov]; simp [acceptEnt, h, entRange]
  · apply foldl_preserves
      (fun st : MaskState => st.existing_spans = st.entities.map entRange)
    · intro st e h
      unfold statStep
      by_cases hl : e.label ∈ statLabels
      · rw [if_pos hl]; simp [acceptEnt, h, entRange, stripEnt]
      · rw [if_neg hl]; exact h
    · simp [initMaskState]

/-- The rejection test is false exactly when the candidate range is
strongly disjoint from every occupied range. -/
theorem overlapsAny_eq_false_iff (spans : List (Nat × Nat)) (s e : Nat) :
    overlapsAny spans s e = false ↔ ∀ p ∈ spans, e ≤ p.1 ∨ p.2 ≤ s := by
  simp [overlapsAny]
  constructor
  · intro h a b hm
    by_cases h1 : a < e
    · exact Or.inr (h a b hm h1)
    · omega
  · intro h a b hm h1
    rcases h a b hm with h2 | h2
    · omega
    · exact h2

/-- Range intersection spelled out on the offsets. -/
theorem overlapR_iff (a b : Ent) :
    overlapR a b ↔
      a.start < b.stop ∧ b.start < a.stop ∧ a.start < a.stop ∧ b.start < b.stop := by
  unfold overlapR
  omega

/-- Strongly disjoint ranges do not intersect. -/
theorem not_overlapR_of_disj {a b : Ent}
    (h : a.stop ≤ b.start ∨ b.stop ≤ a.start) : ¬ overlapR a b := by
  rw [overlapR_iff]
  omega

/-- Stripping surrounding whitespace from the surface text does not move
the offsets, so it does not change range intersection. -/
theorem overlapR_stripEnt (a b : Ent) :
    overlapR (stripEnt a) (stripEnt b) ↔ overlapR a b := by
  simp [overlapR, stripEnt]

/-- Core reconciliation invariant: if the statistical spans are pairwise
non-intersecting, every state reached by the two detector loops has
pairwise non-intersecting accepted entities. -/
theorem maskRun_pairwise_nonoverlap (statSpans patternSpans : List Ent)
    (h : statSpans.Pairwise (fun a b => ¬ overlapR a b)) :
    (maskRun statSpans patternSpans).entities.Pairwise
      (fun a b => ¬ overlapR a b) := by
  unfold maskRun
  have hstep : ∀ (st : MaskState) (e : Ent),
      (st.entities.Pairwise (fun a b => ¬ overlapR a b) ∧
        st.existing_spans = st.entities.map entRange) →
      ((patternStep st e).entities.Pairwise (fun a b => ¬ overlapR a b) ∧
        (patternStep st e).existing_spans = (patternStep st e).entities.map entRange) := by
    intro st e hP
    obtain ⟨hpw, hsp⟩ := hP
    unfold patternStep
    by_cases hov : overlapsAny st.existing_spans e.start e.stop
    · rw [if_pos hov]; exact ⟨hpw, hsp⟩
    · rw [if_neg hov]
      have hov2 : overlapsAny st.existing_spans e.start e.stop = false := by
        simpa using hov
      have hdis := (overlapsAny_eq_false_iff _ _ _).mp hov2
      constructor
      · simp only [acceptEnt, List.pairwise_append]
        refine ⟨hpw, List.pairwise_singleton _ _, ?_⟩
        intro a ha b hb
        rw [List.mem_singleton] at hb
        subst hb
        have hmem : (a.start, a.stop) ∈ st.existing_spans := by
          rw [hsp]
          exact List.mem_map_of_mem entRange ha
        have := hdis _ hmem
        exact not_overlapR_of_disj (by simpa using this.symm)
      · simp [acceptEnt, hsp, entRange]
  have hinit :
      ((statSpans.foldl statStep initMaskState).entities.Pairwise
          (fun a b => ¬ overlapR a b) ∧
        (statSpans.foldl statStep initMaskState).existing_spans =
          (statSpans.foldl statStep initMaskState).entities.map entRange) := by
    constructor
    · rw [statFold_entities statSpans initMaskState]
      simp only [initMaskState, List.nil_append]
      rw [List.pairwise_map]
      have hf :
          (statSpans.filter (fun e => decide (e.label ∈ statLabels))).Pairwise
            (fun a b => ¬ overlapR a b) :=
        List.Pairwise.sublist (List.filter_sublist _) h
      exact hf.imp (fun hab => by
        intro hc
        exact hab ((overlapR_stripEnt _ _).mp hc))
    · rw [statFold_entities statSpans initMaskState,
        statFold_spans statSpans initMaskState]
      simp only [initMaskState, List.nil_append, List.map_map]
      apply List.map_congr_left
      intro e _
      simp [entRange, stripEnt]
  exact (foldl_preserves
    (fun st : MaskState =>
      st.entities.Pairwise (fun a b => ¬ overlapR a b) ∧
        st.existing_spans = st.entities.map entRange)
    patternStep hstep patternSpans _ hinit).1

/-- Membership in the accepted-entities list is preserved by the pattern
loop (it only ever appends). -/
theorem patternFold_entities_mem (patternSpans : List Ent) (x : Ent) :
    ∀ st : MaskState, x ∈ st.entities →
      x ∈ (patternSpans.foldl patternStep st).entities := by
  intro st hx
  refine foldl_preserves (fun st : MaskState => x ∈ st.entities)
    patternStep ?_ patternSpans st hx
  intro s e hs
  unfold patternStep
  by_cases hov : overlapsAny s.existing_spans e.start e.stop
  · rw [if_pos hov]; exact hs
  · rw [if_neg hov]
    simp only [acceptEnt, List.mem_append]
    exact Or.inl hs

/-- Once a range is occupied, every entity the pattern loop appends
afterwards is strongly disjoint from it; hence no appended entity can
have a range that intersects the occupied one. -/
theorem patternFold_no_intersecting_append (patternSpans : List Ent)
    (q p : Ent) (n1 : Nat) (hov : overlapR p q) :
    ∀ st : MaskState,
      ((q.start, q.stop) ∈ st.existing_spans ∧ n1 ≤ st.entities.length ∧
        ∀ e ∈ st.entities.drop n1, entRange e ≠ entRange p) →
      ((q.start, q.stop) ∈ (patternSpans.foldl patternStep st).existing_spans ∧
        n1 ≤ (patternSpans.foldl patternStep st).entities.length ∧
        ∀ e ∈ (patternSpans.foldl patternStep st).entities.drop n1,
          entRange e ≠ entRange p) := by
  intro st hP
  refine foldl_preserves
    (fun st : MaskState =>
      (q.start, q.stop) ∈ st.existing_spans ∧ n1 ≤ st.entities.length ∧
        ∀ e ∈ st.entities.drop n1, entRange e ≠ entRange p)
    patternStep ?_ patternSpans st hP
  intro s e hs
  obtain ⟨hqmem, hn, hall⟩ := hs
  unfold patternStep
  by_cases hov2 : overlapsAny s.existing_spans e.start e.stop
  · rw [if_pos hov2]; exact ⟨hqmem, hn, hall⟩
  · rw [if_neg hov2]
    have hov3 : overlapsAny s.existing_spans e.start e.stop = false := by
      simpa using hov2
    have hdis := (overlapsAny_eq_false_iff _ _ _).mp hov3 _ hqmem
    refine ⟨?_, ?_, ?_⟩
    · simp only [acceptEnt, List.mem_append]
      exact Or.inl hqmem
    · simp only [acceptEnt, List.length_append, List.length_singleton]
      omega
    · intro x hx
      simp only [acceptEnt] at hx
      rw [List.drop_append_of_le_length hn] at hx
      rcases List.mem_append.mp hx with hx | hx
      · exact hall x hx
      · rw [List.mem_singleton] at hx
        subst hx
        intro hEq
        have h1 : x.start = p.start ∧ x.stop = p.stop := by
          simpa [entRange, Prod.ext_iff] using hEq
        have h2 := (overlapR_iff p q).mp hov
        simp only [entRange] at hdis
        omega

/-- C1 as frozen is refuted below (`C1_counterexample`): Step 1 accepts
every CARDINAL/MONEY/PERCENT statistical span with no overlap check, so
an overlapping pair of statistical spans is accepted wholesale.  Amended
claim: provided the statistical detector's spans are themselves pairwise
non-intersecting (spaCy's guarantee for `doc.ents`), the accepted span
set of the reconciliation step is pairwise non-overlapping: no two
accepted spans' `[start, stop)` ranges intersect. -/
theorem C1_accepted_pairwise_nonoverlap (statSpans patternSpans : List Ent)
    (h : statSpans.Pairwise (fun a b => ¬ overlapR a b)) :
    (maskRun statSpans patternSpans).entities.Pairwise
      (fun a b => ¬ overlapR a b) :=
  maskRun_pairwise_nonoverlap statSpans patternSpans h

/-- Witness for C1: the amended theorem applied to the spec's concrete
scenario (two statistical spans, one pattern span). -/
theorem C1_witness :
    ([⟨['1','2','%'], "PERCENT", 13, 16⟩,
      ⟨['$','4','.','5',' ','m','i','l','l','i','o','n'], "MONEY", 20, 32⟩] :
        List Ent).Pairwise (fun a b => ¬ overlapR a b) ∧
    (maskRun
      [⟨['1','2','%'], "PERCENT", 13, 16⟩,
       ⟨['$','4','.','5',' ','m','i','l','l','i','o','n'], "MONEY", 20, 32⟩]
      [⟨['2','x'], "RATIO", 36, 38⟩]).entities.Pairwise
        (fun a b => ¬ overlapR a b) :=
  ⟨by decide,
    C1_accepted_pairwise_nonoverlap
      [⟨['1','2','%'], "PERCENT", 13, 16⟩,
       ⟨['$','4','.','5',' ','m','i','l','l','i','o','n'], "MONEY", 20, 32⟩]
      [⟨['2','x'], "RATIO", 36, 38⟩] (by decide)⟩

/-- Counterexample to C1 as frozen: for the statistical-detector output
`[("ab", CARDINAL, 0, 2), ("bc", MONEY, 1, 3)]` (no pattern spans), both
spans are accepted although their ranges `[0,2)` and `[1,3)` intersect,
so the accepted set is not pairwise non-overlapping. -/
theorem C1_counterexample :
    ¬ (maskRun
        [⟨['a','b'], "CARDINAL", 0, 2⟩, ⟨['b','c'], "MONEY", 1, 3⟩]
        []).entities.Pairwise (fun a b => ¬ overlapR a b) := by
  decide

/-- C3: if a pattern-detector span `p` intersects a statistical span `q`
(of one of the three statistical labels), then `q` is retained (its
stripped entity is in the accepted list, so it is masked by Step 3) and
`p` is rejected: no entity accepted by the pattern loop — the part of
the accepted list after the `statCount` statistical entries — has `p`'s
range.  The pattern loop tests candidates against the occupied ranges
with `not (end <= occ_start or start >= occ_end)` and, on acceptance,
appends the candidate's own range to the occupied set (this is the
definition of `patternStep` / `overlapsAny`). -/
theorem C3_statistical_priority (statSpans patternSpans : List Ent)
    (p q : Ent) (hq : q ∈ statSpans) (hqL : q.label ∈ statLabels)
    (_hp : p ∈ patternSpans) (hov : overlapR p q) :
    stripEnt q ∈ (maskRun statSpans patternSpans).entities ∧
    ∀ e ∈ (maskRun statSpans patternSpans).entities.drop (statCount statSpans),
      entRange e ≠ entRange p := by
  unfold maskRun
  have hfilter : q ∈ statSpans.filter (fun e => decide (e.label ∈ statLabels)) :=
    List.mem_filter.mpr ⟨hq, by simpa using hqL⟩
  have hent1 : (statSpans.foldl statStep initMaskState).entities =
      (statSpans.filter (fun e => decide (e.label ∈ statLabels))).map stripEnt := by
    rw [statFold_entities]
    simp [initMaskState]
  have hspan1 : (statSpans.foldl statStep initMaskState).existing_spans =
      (statSpans.filter (fun e => decide (e.label ∈ statLabels))).map entRange := by
    rw [statFold_spans]
    simp [initMaskState]
  have hlen : (statSpans.foldl statStep initMaskState).entities.length =
      statCount statSpans := by
    rw [hent1, List.length_map]
    rfl
  have hinit : (q.start, q.stop) ∈
        (statSpans.foldl statStep initMaskState).existing_spans ∧
      statCount statSpans ≤ (statSpans.foldl statStep initMaskState).entities.length ∧
      ∀ e ∈ (statSpans.foldl statStep initMaskState).entities.drop
          (statCount statSpans), entRange e ≠ entRange p := by
    refine ⟨?_, ?_, ?_⟩
    · rw [hspan1]
      exact List.mem_map_of_mem entRange hfilter
    · rw [hlen]
    · have hnil : (statSpans.foldl statStep initMaskState).entities.drop
          (statCount statSpans) = [] := by
        rw [← hlen, List.drop_length]
      rw [hnil]
      intro e he
      exact absurd he (List.not_mem_nil e)
  have hinv := patternFold_no_intersecting_append patternSpans q p
    (statCount statSpans) hov _ hinit
  refine ⟨?_, hinv.2.2⟩
  apply patternFold_entities_mem
  rw [hent1]
  exact List.mem_map_of_mem stripEnt hfilter

/-- A lookup succeeds exactly when the key occurs in the list. -/
theorem lookupA_isSome_iff {κ β : Type} [DecidableEq κ] :
    ∀ (em : List (κ × β)) (t : κ),
      (lookupA em t).isSome = true ↔ t ∈ keysOf em := by
  intro em
  induction em with
  | nil => intro t; simp [lookupA, keysOf]
  | cons kv rest ih =>
    intro t
    have hk : keysOf (kv :: rest) = kv.1 :: keysOf rest := rfl
    rw [hk, List.mem_cons]
    by_cases h : kv.1 = t
    · rw [lookupA, if_pos h]
      exact ⟨fun _ => Or.inl h.symm, fun _ => rfl⟩
    · rw [lookupA, if_neg h, ih t]
      constructor
      · exact fun hs => Or.inr hs
      · rintro (h1 | h1)
        · exact absurd h1.symm h
        · exact h1

/-- Membership in `seenAfter`: the starting set plus the scanned texts. -/
theorem mem_seenAfter :
    ∀ (es : List Ent) (seen : List (List Char)) (x : List Char),
      x ∈ seenAfter seen es ↔ x ∈ seen ∨ x ∈ es.map (fun y => y.text) := by
  intro es
  induction es with
  | nil => intro seen x; simp [seenAfter]
  | cons e rest ih =>
    intro seen x
    by_cases h : e.text ∈ seen
    · rw [seenAfter, if_pos h, ih]
      simp only [List.map_cons, List.mem_cons]
      constructor
      · rintro (h1 | h1)
        · exact Or.inl h1
        · exact Or.inr (Or.inr h1)
      · rintro (h1 | h1 | h1)
        · exact Or.inl h1
        · subst h1; exact Or.inl h
        · exact Or.inr h1
    · rw [seenAfter, if_neg h, ih]
      simp only [List.mem_cons, List.map_cons]
      constructor
      · rintro ((h1 | h1) | h1)
        · exact Or.inr (Or.inl h1)
        · exact Or.inl h1
        · exact Or.inr (Or.inr h1)
      · rintro (h1 | h1 | h1)
        · exact Or.inl (Or.inr h1)
        · exact Or.inl (Or.inl h1)
        · exact Or.inr h1

/-- Appending one entity extends the first-occurrence subsequence by the
entity iff its text has not been seen. -/
theorem distinctBy_append_singleton :
    ∀ (es : List Ent) (seen : List (List Char)) (e : Ent),
      distinctBy seen (es ++ [e]) =
        distinctBy seen es ++
          (if e.text ∈ seenAfter seen es then [] else [e]) := by
  intro es
  induction es with
  | nil =>
    intro seen e
    by_cases h : e.text ∈ seen
    · simp [distinctBy, seenAfter, h]
    · simp [distinctBy, seenAfter, h]
  | cons d rest ih =>
    intro seen e
    by_cases h : d.text ∈ seen
    · simp only [List.cons_append, distinctBy, seenAfter, if_pos h]
      exact ih seen e
    · simp only [List.cons_append, distinctBy, seenAfter, if_neg h]
      exact congrArg (fun l => d :: l) (ih (d.text :: seen) e)

/-- The keys of the reconstructed map are the distinct texts in order. -/
theorem keysOf_specMapGo :
    ∀ (ds : List Ent) (c : String → Nat),
      keysOf (specMapGo c ds) = ds.map (fun x => x.text) := by
  intro ds
  induction ds with
  | nil => intro c; rfl
  | cons d rest ih =>
    intro c
    have htl := ih (bumpCounter c d.label)
    simp only [keysOf, specMapGo, List.map_cons] at htl ⊢
    exact congrArg (fun l => d.text :: l) htl

/-- Texts of the first-occurrence subsequence: exactly the scanned texts
outside the starting set. -/
theorem mem_map_distinctBy :
    ∀ (es : List Ent) (seen : List (List Char)) (x : List Char),
      x ∈ (distinctBy seen es).map (fun y => y.text) ↔
        x ∈ es.map (fun y => y.text) ∧ x ∉ seen := by
  intro es
  induction es with
  | nil => intro seen x; simp [distinctBy]
  | cons e rest ih =>
    intro seen x
    by_cases h : e.text ∈ seen
    · rw [distinctBy, if_pos h, ih]
      simp only [List.map_cons, List.mem_cons]
      constructor
      · rintro ⟨h1, h2⟩
        exact ⟨Or.inr h1, h2⟩
      · rintro ⟨h1 | h1, h2⟩
        · subst h1; exact absurd h h2
        · exact ⟨h1, h2⟩
    · rw [distinctBy, if_neg h]
      simp only [List.map_cons, List.mem_cons, ih]
      constructor
      · rintro (h1 | ⟨h1, h2⟩)
        · subst h1; exact ⟨Or.inl rfl, h⟩
        · exact ⟨Or.inr h1, fun hc => h2 (Or.inr hc)⟩
      · rintro ⟨h1 | h1, h2⟩
        · exact Or.inl h1
        · by_cases hx : x = e.text
          · exact Or.inl hx
          · exact Or.inr ⟨h1, fun hc => hc.elim hx h2⟩

/-- The first-occurrence subsequence has pairwise distinct texts, none of
them in the starting set. -/
theorem distinctBy_nodup :
    ∀ (es : List Ent) (seen : List (List Char)),
      ((distinctBy seen es).map (fun y => y.text)).Nodup ∧
        ∀ x ∈ (distinctBy seen es).map (fun y => y.text), x ∉ seen := by
  intro es
  induction es with
  | nil => intro seen; simp [distinctBy]
  | cons e rest ih =>
    intro seen
    by_cases h : e.text ∈ seen
    · rw [distinctBy, if_pos h]
      exact ih seen
    · rw [distinctBy, if_neg h]
      have ih2 := ih (e.text :: seen)
      simp only [List.map_cons, List.nodup_cons]
      refine ⟨⟨?_, ih2.1⟩, ?_⟩
      · intro hc
        exact (ih2.2 _ hc) (List.mem_cons_self _ _)
      · intro x hx hxs
        rcases List.mem_cons.mp hx with h1 | h1
        · subst h1; exact h hxs
        · exact (ih2.2 x h1) (List.mem_cons_of_mem _ hxs)

/-- Label count over a snoc. -/
theorem countLabel_append_singleton (L : String) (ds : List Ent) (e : Ent) :
    countLabel L (ds ++ [e]) =
      countLabel L ds + (if e.label = L then 1 else 0) := by
  by_cases h : e.label = L
  · simp [countLabel, List.filter_append, h]
  · simp [countLabel, List.filter_append, h]

/-- Reconstructed map over a snoc: the new entry's number is the running
counter plus the label count so far plus one. -/
theorem specMapGo_append_singleton :
    ∀ (ds : List Ent) (c : String → Nat) (e : Ent),
      specMapGo c (ds ++ [e]) =
        specMapGo c ds ++
          [(e.text, mkPlaceholder e.label (c e.label + countLabel e.label ds + 1))] := by
  intro ds
  induction ds with
  | nil => intro c e; simp [specMapGo, countLabel]
  | cons d rest ih =>
    intro c e
    have harg : bumpCounter c d.label e.label + countLabel e.label rest + 1 =
        c e.label + countLabel e.label (d :: rest) + 1 := by
      by_cases h : e.label = d.label
      · simp only [bumpCounter, countLabel, List.filter_cons, h, decide_eq_true_eq,
          if_true, eq_self_iff_true]
        simp [h.symm]
        omega
      · have h2 : ¬ d.label = e.label := fun hc => h hc.symm
        simp [bumpCounter, countLabel, List.filter_cons, h, h2]
    have h2 : specMapGo (bumpCounter c d.label) (rest ++ [e]) =
        specMapGo (bumpCounter c d.label) rest ++
          [(e.text, mkPlaceholder e.label
            (c e.label + countLabel e.label (d :: rest) + 1))] := by
      rw [ih (bumpCounter c d.label) e, harg]
    exact congrArg
      (fun l => (d.text, mkPlaceholder d.label (c d.label + 1)) :: l) h2

/-- Looking up the `n`-th entity of a given label among distinct-text
entities yields the placeholder numbered from the running counter. -/
theorem specMapGo_lookup :
    ∀ (ds : List Ent) (c : String → Nat),
      ((ds.map (fun y => y.text)).Nodup) →
      ∀ (L : String) (n : Nat) (e : Ent),
        (ds.filter (fun x => decide (x.label = L))).get? n = some e →
        lookupA (specMapGo c ds) e.text =
          some (mkPlaceholder L (c L + n + 1)) := by
  intro ds
  induction ds with
  | nil => intro c _ L n e hget; simp [List.get?] at hget
  | cons d rest ih =>
    intro c hnd L n e hget
    simp only [List.map_cons, List.nodup_cons] at hnd
    by_cases hL : d.label = L
    · rw [List.filter_cons, if_pos (by simpa using hL)] at hget
      cases n with
      | zero =>
        have he : e = d := by
          simp [List.get?] at hget
          exact hget.symm
        subst he
        simp [specMapGo, lookupA, hL]
      | succ n =>
        have hget2 : (rest.filter (fun x => decide (x.label = L))).get? n = some e := by
          simpa [List.get?] using hget
        have hemem : e ∈ rest :=
          List.mem_of_mem_filter (List.get?_mem hget2)
        have hne : ¬ d.text = e.text := by
          intro hc
          exact hnd.1 (hc ▸ List.mem_map_of_mem (fun y => y.text) hemem)
        have := ih (bumpCounter c d.label) hnd.2 L n e hget2
        rw [specMapGo, lookupA, if_neg hne, this]
        have harg : bumpCounter c d.label L + n + 1 = c L + (n + 1) + 1 := by
          simp [bumpCounter, hL]
          omega
        rw [harg]
    · rw [List.filter_cons, if_neg (by simpa using hL)] at hget
      have hemem : e ∈ rest :=
        List.mem_of_mem_filter (List.get?_mem hget)
      have hne : ¬ d.text = e.text := by
        intro hc
        exact hnd.1 (hc ▸ List.mem_map_of_mem (fun y => y.text) hemem)
      have := ih (bumpCounter c d.label) hnd.2 L n e hget
      rw [specMapGo, lookupA, if_neg hne, this]
      have harg : bumpCounter c d.label L = c L := by
        simp [bumpCounter]
        intro hc
        exact absurd hc.symm hL
      rw [harg]

/-- Accepting one span preserves the allocation invariant: the entity
map equals the reconstruction from the first-acceptance sequence and
each label's counter equals its count of distinct texts. -/
theorem acceptEnt_allocInv (st : MaskState) (e : Ent)
    (hm : st.entity_map = specMapGo zeroCounter (distinctEnts st.entities))
    (hc : ∀ L, st.entity_counter L = countLabel L (distinctEnts st.entities)) :
    (acceptEnt st e).entity_map =
      specMapGo zeroCounter (distinctEnts (acceptEnt st e).entities) ∧
    ∀ L, (acceptEnt st e).entity_counter L =
      countLabel L (distinctEnts (acceptEnt st e).entities) := by
  have hkeys : keysOf st.entity_map =
      (distinctEnts st.entities).map (fun y => y.text) := by
    rw [hm, keysOf_specMapGo]
  have hmemk : e.text ∈ keysOf st.entity_map ↔
      e.text ∈ st.entities.map (fun y => y.text) := by
    rw [hkeys, distinctEnts, mem_map_distinctBy]
    simp
  have hseeniff : e.text ∈ seenAfter [] st.entities ↔
      e.text ∈ st.entities.map (fun y => y.text) := by
    rw [mem_seenAfter]
    simp
  have hents : (acceptEnt st e).entities = st.entities ++ [e] := rfl
  have hdst : distinctEnts (st.entities ++ [e]) =
      distinctEnts st.entities ++
        (if e.text ∈ seenAfter [] st.entities then [] else [e]) := by
    rw [distinctEnts, distinctBy_append_singleton, distinctEnts]
  cases hlook : lookupA st.entity_map e.text with
  | some p =>
    have hseen : e.text ∈ seenAfter [] st.entities := by
      rw [hseeniff, ← hmemk]
      exact (lookupA_isSome_iff _ _).mp (by rw [hlook]; rfl)
    have hmap : (acceptEnt st e).entity_map = st.entity_map := by
      simp [acceptEnt, allocStep, hlook]
    have hcnt : (acceptEnt st e).entity_counter = st.entity_counter := by
      simp [acceptEnt, allocStep, hlook]
    constructor
    · rw [hmap, hents, hdst, if_pos hseen, List.append_nil]
      exact hm
    · intro L
      rw [hcnt, hents, hdst, if_pos hseen, List.append_nil]
      exact hc L
  | none =>
    have hseen : e.text ∉ seenAfter [] st.entities := by
      rw [hseeniff, ← hmemk]
      intro hcon
      have h2 := (lookupA_isSome_iff st.entity_map e.text).mpr hcon
      rw [hlook] at h2
      exact absurd h2 (by simp)
    have hmap : (acceptEnt st e).entity_map =
        st.entity_map ++
          [(e.text, mkPlaceholder e.label (st.entity_counter e.label + 1))] := by
      simp [acceptEnt, allocStep, hlook]
    have hcnt : (acceptEnt st e).entity_counter = bumpCounter st.entity_counter e.label := by
      simp [acceptEnt, allocStep, hlook]
    constructor
    · rw [hmap, hm, hents, hdst, if_neg hseen, specMapGo_append_singleton,
        hc e.label]
      simp [zeroCounter]
    · intro L
      rw [hcnt, hents, hdst, if_neg hseen, countLabel_append_singleton]
      simp only [bumpCounter]
      by_cases hL : L = e.label
      · rw [if_pos hL, hc L, if_pos hL.symm]
      · rw [if_neg hL, hc L, if_neg (fun hc2 => hL hc2.symm)]
        omega

/-- The allocation invariant holds of the full two-loop run. -/
theorem maskRun_allocInv (statSpans patternSpans : List Ent) :
    (maskRun statSpans patternSpans).entity_map =
      specMapGo zeroCounter
        (distinctEnts (maskRun statSpans patternSpans).entities) ∧
    ∀ L, (maskRun statSpans patternSpans).entity_counter L =
      countLabel L (distinctEnts (maskRun statSpans patternSpans).entities) := by
  unfold maskRun
  have hstep2 : ∀ (st : MaskState) (e : Ent),
      (st.entity_map = specMapGo zeroCounter (distinctEnts st.entities) ∧
        ∀ L, st.entity_counter L = countLabel L (distinctEnts st.entities)) →
      ((patternStep st e).entity_map =
          specMapGo zeroCounter (distinctEnts (patternStep st e).entities) ∧
        ∀ L, (patternStep st e).entity_counter L =
          countLabel L (distinctEnts (patternStep st e).entities)) := by
    intro st e h
    unfold patternStep
    by_cases hov : overlapsAny st.existing_spans e.start e.stop
    · rw [if_pos hov]; exact h
    · rw [if_neg hov]; exact acceptEnt_allocInv st e h.1 h.2
  have hstep1 : ∀ (st : MaskState) (e : Ent),
      (st.entity_map = specMapGo zeroCounter (distinctEnts st.entities) ∧
        ∀ L, st.entity_counter L = countLabel L (distinctEnts st.entities)) →
      ((statStep st e).entity_map =
          specMapGo zeroCounter (distinctEnts (statStep st e).entities) ∧
        ∀ L, (statStep st e).entity_counter L =
          countLabel L (distinctEnts (statStep st e).entities)) := by
    intro st e h
    unfold statStep
    by_cases hl : e.label ∈ statLabels
    · rw [if_pos hl]; exact acceptEnt_allocInv st (stripEnt e) h.1 h.2
    · rw [if_neg hl]; exact h
  have hinit :
      (initMaskState.entity_map =
          specMapGo zeroCounter (distinctEnts initMaskState.entities) ∧
        ∀ L, initMaskState.entity_counter L =
          countLabel L (distinctEnts initMaskState.entities)) := by
    exact ⟨rfl, fun L => rfl⟩
  exact foldl_preserves
    (fun st : MaskState =>
      st.entity_map = specMapGo zeroCounter (distinctEnts st.entities) ∧
        ∀ L, st.entity_counter L = countLabel L (distinctEnts st.entities))
    patternStep hstep2 patternSpans _
    (foldl_preserves _ statStep hstep1 statSpans _ hinit)

/-- C4: within one masking call, placeholders are stable per surface
text.  The final entity map binds each distinct (whitespace-trimmed)
surface text exactly once — its key list is `Nodup` — and every accepted
span's text is bound, so two accepted spans with the same text (whether
found by the statistical or the pattern detector, under any rules) are
rewritten with one and the same placeholder by `entity_map[ent['text']]`.
Moreover the allocation conditional reuses an existing binding: when the
text is already a key, `allocStep` returns the counters and the map
unchanged, allocating nothing new. -/
theorem C4_same_text_same_placeholder (statSpans patternSpans : List Ent) :
    (keysOf (maskRun statSpans patternSpans).entity_map).Nodup ∧
    (∀ e ∈ (maskRun statSpans patternSpans).entities,
      ∃ ph, lookupA (maskRun statSpans patternSpans).entity_map e.text =
        some ph) ∧
    (∀ (c : String → Nat) (em : List (List Char × List Char))
        (t : List Char) (lab : String) (ph : List Char),
      lookupA em t = some ph → allocStep c em t lab = (c, em)) := by
  obtain ⟨hm, hc⟩ := maskRun_allocInv statSpans patternSpans
  have hkeys : keysOf (maskRun statSpans patternSpans).entity_map =
      (distinctEnts (maskRun statSpans patternSpans).entities).map
        (fun y => y.text) := by
    rw [hm, keysOf_specMapGo]
  refine ⟨?_, ?_, ?_⟩
  · rw [hkeys]
    exact (distinctBy_nodup _ []).1
  · intro e he
    have hmem : e.text ∈ keysOf (maskRun statSpans patternSpans).entity_map := by
      rw [hkeys, distinctEnts, mem_map_distinctBy]
      exact ⟨List.mem_map_of_mem _ he, List.not_mem_nil _⟩
    exact Option.isSome_iff_exists.mp ((lookupA_isSome_iff _ _).mpr hmem)
  · intro c em t lab ph hl
    simp [allocStep, hl]

/-- Witness for C4: a run where the texts `"42"` and `" 42"` strip to the
same key; the key list is duplicate-free, the stripped text is bound,
and `allocStep` on an already-bound key changes nothing. -/
theorem C4_witness :
    (keysOf (maskRun
      [⟨['4','2'], "CARDINAL", 0, 2⟩, ⟨[' ','4','2'], "CARDINAL", 5, 8⟩]
      []).entity_map).Nodup ∧
    (∃ ph, lookupA (maskRun
      [⟨['4','2'], "CARDINAL", 0, 2⟩, ⟨[' ','4','2'], "CARDINAL", 5, 8⟩]
      []).entity_map (pyStrip [' ','4','2']) = some ph) ∧
    allocStep zeroCounter [(['4','2'], ['P'])] ['4','2'] "MONEY" =
      (zeroCounter, [(['4','2'], ['P'])]) := by
  obtain ⟨h1, h2, h3⟩ := C4_same_text_same_placeholder
    [⟨['4','2'], "CARDINAL", 0, 2⟩, ⟨[' ','4','2'], "CARDINAL", 5, 8⟩] []
  exact ⟨h1,
    h2 (stripEnt ⟨[' ','4','2'], "CARDINAL", 5, 8⟩) (by decide),
    h3 zeroCounter [(['4','2'], ['P'])] ['4','2'] "MONEY" ['P'] (by decide)⟩

/-- C5: in a fresh masking call the `n`-th (0-based index `n`) distinct
entity text first accepted with label `L` is mapped to exactly the
placeholder `"[L_{n+1}]"` — 1-based numbering in order of first
acceptance — and `L`'s counter finishes equal to the number of distinct
texts assigned to `L`, so the numbering is monotonically increasing with
no gaps or repeats. -/
theorem C5_monotonic_numbering (statSpans patternSpans : List Ent)
    (L : String) (n : Nat) (e : Ent)
    (hn : ((distinctEnts (maskRun statSpans patternSpans).entities).filter
        (fun x => decide (x.label = L))).get? n = some e) :
    lookupA (maskRun statSpans patternSpans).entity_map e.text =
      some (mkPlaceholder L (n + 1)) ∧
    (maskRun statSpans patternSpans).entity_counter L =
      countLabel L (distinctEnts (maskRun statSpans patternSpans).entities) := by
  obtain ⟨hm, hc⟩ := maskRun_allocInv statSpans patternSpans
  refine ⟨?_, hc L⟩
  rw [hm]
  have hnd : ((distinctEnts (maskRun statSpans patternSpans).entities).map
      (fun y => y.text)).Nodup :=
    (distinctBy_nodup _ []).1
  have h2 := specMapGo_lookup
    (distinctEnts (maskRun statSpans patternSpans).entities)
    zeroCounter hnd L n e hn
  simpa [zeroCounter] using h2

/-- Witness for C5: two distinct CARDINAL texts; the second (0-based
index 1) is mapped to `"[CARDINAL_2]"`, and the counter equals the
distinct-text count. -/
theorem C5_witness :
    ((distinctEnts (maskRun
        [⟨['1','2'], "CARDINAL", 0, 2⟩, ⟨['7'], "CARDINAL", 5, 6⟩]
        []).entities).filter
      (fun x => decide (x.label = "CARDINAL"))).get? 1 =
        some ⟨['7'], "CARDINAL", 5, 6⟩ ∧
    lookupA (maskRun
        [⟨['1','2'], "CARDINAL", 0, 2⟩, ⟨['7'], "CARDINAL", 5, 6⟩]
        []).entity_map ['7'] = some (mkPlaceholder "CARDINAL" 2) ∧
    (maskRun [⟨['1','2'], "CARDINAL", 0, 2⟩, ⟨['7'], "CARDINAL", 5, 6⟩]
        []).entity_counter "CARDINAL" =
      countLabel "CARDINAL" (distinctEnts (maskRun
        [⟨['1','2'], "CARDINAL", 0, 2⟩, ⟨['7'], "CARDINAL", 5, 6⟩]
        []).entities) := by
  have h := C5_monotonic_numbering
    [⟨['1','2'], "CARDINAL", 0, 2⟩, ⟨['7'], "CARDINAL", 5, 6⟩] []
    "CARDINAL" 1 ⟨['7'], "CARDINAL", 5, 6⟩ (by decide)
  exact ⟨by decide, h.1, h.2⟩

/-- Intersection of ranges is symmetric. -/
theorem overlapR_comm (a b : Ent) : overlapR a b ↔ overlapR b a := by
  unfold overlapR
  omega

/-- Frame property of the replacement fold: replacements that all happen
inside the prefix `u` leave an appended suffix `v` untouched. -/
theorem foldReplace_append (em : List (List Char × List Char)) :
    ∀ (ds : List Ent) (u v : List Char),
      ds.Pairwise (fun a b => b.stop ≤ a.start) →
      (∀ e ∈ ds, e.start ≤ e.stop) →
      (∀ e ∈ ds, e.stop ≤ u.length) →
      ds.foldl (replaceOne em) (u ++ v) = ds.foldl (replaceOne em) u ++ v := by
  intro ds
  induction ds with
  | nil => intro u v _ _ _; rfl
  | cons e rest ih =>
    intro u v hchain hse hlen
    have hes : e.start ≤ e.stop := hse e (List.mem_cons_self e rest)
    have hel : e.stop ≤ u.length := hlen e (List.mem_cons_self e rest)
    have hchain2 := List.pairwise_cons.mp hchain
    have h1 : replaceOne em (u ++ v) e = replaceOne em u e ++ v := by
      unfold replaceOne
      rw [List.take_append_of_le_length (le_trans hes hel),
        List.drop_append_of_le_length hel]
      simp [List.append_assoc]
    have hul : e.start ≤ (replaceOne em u e).length := by
      simp only [replaceOne, List.length_append, List.length_take,
        List.length_drop]
      omega
    rw [List.foldl_cons, List.foldl_cons, h1]
    exact ih (replaceOne em u e) v hchain2.2
      (fun y hy => hse y (List.mem_cons_of_mem e hy))
      (fun y hy => le_trans (hchain2.1 y hy) hul)

/-- Right-to-left replacement over a descending, pairwise strongly
disjoint, in-bounds span list equals the segment decomposition
`assembleDesc`: the text outside the replaced ranges appears unchanged
and in order. -/
theorem foldReplace_eq_assembleDesc (em : List (List Char × List Char)) :
    ∀ (ds : List Ent) (t : List Char),
      ds.Pairwise (fun a b => b.stop ≤ a.start) →
      (∀ e ∈ ds, e.start ≤ e.stop) →
      (∀ e ∈ ds, e.stop ≤ t.length) →
      ds.foldl (replaceOne em) t = assembleDesc em t ds := by
  intro ds
  induction ds with
  | nil => intro t _ _ _; rfl
  | cons e rest ih =>
    intro t hchain hse hlen
    have hes : e.start ≤ e.stop := hse e (List.mem_cons_self e rest)
    have hel : e.stop ≤ t.length := hlen e (List.mem_cons_self e rest)
    have hchain2 := List.pairwise_cons.mp hchain
    have htl : (t.take e.start).length = e.start := by
      rw [List.length_take]
      omega
    have hstep : replaceOne em t e =
        t.take e.start ++ (mapAt em e.text ++ t.drop e.stop) := by
      simp [replaceOne, List.append_assoc]
    rw [List.foldl_cons, hstep,
      foldReplace_append em rest (t.take e.start) (mapAt em e.text ++ t.drop e.stop)
        hchain2.2 (fun y hy => hse y (List.mem_cons_of_mem e hy))
        (fun y hy => by rw [htl]; exact hchain2.1 y hy),
      ih (t.take e.start) hchain2.2
        (fun y hy => hse y (List.mem_cons_of_mem e hy))
        (fun y hy => by rw [htl]; exact hchain2.1 y hy)]
    simp [assembleDesc, List.append_assoc]

/-- Inserting into a start-descending list is a permutation. -/
theorem insertByStartDesc_perm (x : Ent) :
    ∀ l : List Ent, List.Perm (insertByStartDesc x l) (x :: l) := by
  intro l
  induction l with
  | nil => simp [insertByStartDesc]
  | cons y ys ih =>
    unfold insertByStartDesc
    by_cases h : x.start < y.start
    · rw [if_pos h]
      exact (ih.cons y).trans (List.Perm.swap x y ys)
    · rw [if_neg h]

/-- The sort of Step 3 is a permutation of its input. -/
theorem sortByStartDesc_perm :
    ∀ l : List Ent, List.Perm (sortByStartDesc l) l := by
  intro l
  induction l with
  | nil => exact List.Perm.refl []
  | cons x xs ih =>
    unfold sortByStartDesc
    exact (insertByStartDesc_perm x (sortByStartDesc xs)).trans (ih.cons x)

/-- Inserting into a start-descending list keeps it start-descending. -/
theorem insertByStartDesc_sorted (x : Ent) :
    ∀ l : List Ent, l.Pairwise (fun a b => b.start ≤ a.start) →
      (insertByStartDesc x l).Pairwise (fun a b => b.start ≤ a.start) := by
  intro l
  induction l with
  | nil => intro _; simp [insertByStartDesc]
  | cons y ys ih =>
    intro hs
    have hs2 := List.pairwise_cons.mp hs
    unfold insertByStartDesc
    by_cases h : x.start < y.start
    · rw [if_pos h]
      rw [List.pairwise_cons]
      refine ⟨?_, ih hs2.2⟩
      intro z hz
      rcases (insertByStartDesc_perm x ys).mem_iff.mp hz with hz2
      rcases List.mem_cons.mp hz2 with hz3 | hz3
      · subst hz3; omega
      · exact hs2.1 z hz3
    · rw [if_neg h]
      rw [List.pairwise_cons]
      refine ⟨?_, hs⟩
      intro z hz
      rcases List.mem_cons.mp hz with hz2 | hz2
      · subst hz2; omega
      · have := hs2.1 z hz2
        omega

/-- The sort of Step 3 returns a start-descending list. -/
theorem sortByStartDesc_sorted :
    ∀ l : List Ent,
      (sortByStartDesc l).Pairwise (fun a b => b.start ≤ a.start) := by
  intro l
  induction l with
  | nil => simp [sortByStartDesc]
  | cons x xs ih =>
    unfold sortByStartDesc
    exact insertByStartDesc_sorted x (sortByStartDesc xs) ih

/-- A start-descending list of non-empty, pairwise non-intersecting
spans is a strongly descending chain. -/
theorem chain_of_sorted_disjoint :
    ∀ l : List Ent, (∀ e ∈ l, e.start < e.stop) →
      l.Pairwise (fun a b => b.start ≤ a.start) →
      l.Pairwise (fun a b => ¬ overlapR a b) →
      l.Pairwise (fun a b => b.stop ≤ a.start) := by
  intro l
  induction l with
  | nil => intro _ _ _; exact List.Pairwise.nil
  | cons e rest ih =>
    intro hne hs hd
    rw [List.pairwise_cons] at hs hd ⊢
    refine ⟨?_, ih (fun y hy => hne y (List.mem_cons_of_mem e hy)) hs.2 hd.2⟩
    intro y hy
    have h1 := hs.1 y hy
    have h2 := hd.1 y hy
    have h3 := hne e (List.mem_cons_self e rest)
    have h4 := hne y (List.mem_cons_of_mem e hy)
    by_contra hcon
    apply h2
    rw [overlapR_iff]
    omega

/-- C2: for every text and every span set that is pairwise
non-overlapping, non-empty per span, and within the text's bounds (the
Span invariant of the data model), the rewrite step — sort by `start`
descending, then fold `text[:start] + placeholder + text[end:]` — equals
the segment decomposition `assembleDesc`, in which every portion of the
input text outside the replaced ranges appears unchanged and in order.
All slicing in the model is total (`List.take`/`List.drop`), as Python
slicing is, so the step cannot throw for in-bounds spans; the only other
Python failure mode, a `KeyError` on `entity_map[ent['text']]`, cannot
occur for the masker's own accepted sets because every accepted text is
a key of the map (see the C4 theorem). -/
theorem C2_rewrite_preserves_outside (t : List Char)
    (em : List (List Char × List Char)) (es : List Ent)
    (hne : ∀ e ∈ es, e.start < e.stop)
    (hin : ∀ e ∈ es, e.stop ≤ t.length)
    (hdisj : es.Pairwise (fun a b => ¬ overlapR a b)) :
    rewriteMasked t em es = assembleDesc em t (sortByStartDesc es) := by
  unfold rewriteMasked
  have hperm := sortByStartDesc_perm es
  have hdisj2 : (sortByStartDesc es).Pairwise (fun a b => ¬ overlapR a b) :=
    (List.Perm.pairwise_iff
      (fun {a b} hab hc => hab ((overlapR_comm b a).mp hc)) hperm).mpr hdisj
  have hne2 : ∀ e ∈ sortByStartDesc es, e.start < e.stop :=
    fun e he => hne e (hperm.mem_iff.mp he)
  have hin2 : ∀ e ∈ sortByStartDesc es, e.stop ≤ t.length :=
    fun e he => hin e (hperm.mem_iff.mp he)
  have hchain := chain_of_sorted_disjoint (sortByStartDesc es) hne2
    (sortByStartDesc_sorted es) hdisj2
  exact foldReplace_eq_assembleDesc em (sortByStartDesc es) t hchain
    (fun e he => Nat.le_of_lt (hne2 e he)) hin2

/-- Witness for C2: two disjoint in-bounds spans over a six-character
text; the rewrite equals the segment decomposition. -/
theorem C2_witness :
    (∀ e ∈ ([⟨['c','d'], "X", 2, 4⟩, ⟨['a'], "Y", 0, 1⟩] : List Ent),
      e.start < e.stop) ∧
    (∀ e ∈ ([⟨['c','d'], "X", 2, 4⟩, ⟨['a'], "Y", 0, 1⟩] : List Ent),
      e.stop ≤ (['a','b','c','d','e','f'] : List Char).length) ∧
    ([⟨['c','d'], "X", 2, 4⟩, ⟨['a'], "Y", 0, 1⟩] : List Ent).Pairwise
      (fun a b => ¬ overlapR a b) ∧
    rewriteMasked ['a','b','c','d','e','f']
        [(['c','d'], ['P']), (['a'], ['Q'])]
        [⟨['c','d'], "X", 2, 4⟩, ⟨['a'], "Y", 0, 1⟩] =
      assembleDesc [(['c','d'], ['P']), (['a'], ['Q'])]
        ['a','b','c','d','e','f']
        (sortByStartDesc [⟨['c','d'], "X", 2, 4⟩, ⟨['a'], "Y", 0, 1⟩]) :=
  ⟨by decide, by decide, by decide,
    C2_rewrite_preserves_outside ['a','b','c','d','e','f']
      [(['c','d'], ['P']), (['a'], ['Q'])]
      [⟨['c','d'], "X", 2, 4⟩, ⟨['a'], "Y", 0, 1⟩]
      (by decide) (by decide) (by decide)⟩

/-- Witness for C3: the spec's overlap scenario — a statistical PERCENT
span at `(10,13)` and a pattern PERCENT match at the same `(10,13)`; the
statistical span is retained and no pattern-accepted entity has the
pattern span's range. -/
theorem C3_witness :
    stripEnt ⟨['5','0','%'], "PERCENT", 10, 13⟩ ∈
      (maskRun [⟨['5','0','%'], "PERCENT", 10, 13⟩]
        [⟨['5','0','%'], "PERCENT", 10, 13⟩]).entities ∧
    ∀ e ∈ (maskRun [⟨['5','0','%'], "PERCENT", 10, 13⟩]
        [⟨['5','0','%'], "PERCENT", 10, 13⟩]).entities.drop
          (statCount [⟨['5','0','%'], "PERCENT", 10, 13⟩]),
      entRange e ≠ entRange ⟨['5','0','%'], "PERCENT", 10, 13⟩ :=
  C3_statistical_priority
    [⟨['5','0','%'], "PERCENT", 10, 13⟩]
    [⟨['5','0','%'], "PERCENT", 10, 13⟩]
    ⟨['5','0','%'], "PERCENT", 10, 13⟩
    ⟨['5','0','%'], "PERCENT", 10, 13⟩
    (by decide) (by decide) (by decide) (by decide)

/-- Lookup through the in-place value update of `setEntry`'s first
branch. -/
theorem lookupA_map_update (f : List (String × Json)) (k k2 : String)
    (v : Json) :
    lookupA (f.map (fun x => if x.1 = k then (x.1, v) else x)) k2 =
      (lookupA f k2).map (fun w => if k2 = k then v else w) := by
  induction f with
  | nil => rfl
  | cons e rest ih =>
    obtain ⟨a, b⟩ := e
    simp only [List.map_cons]
    by_cases h1 : (a, b).1 = k
    · rw [if_pos h1]
      simp only at h1
      by_cases h2 : a = k2
      · rw [lookupA, if_pos h2, lookupA, if_pos h2]
        have h3 : k2 = k := by rw [← h2, h1]
        simp [h3]
      · rw [lookupA, if_neg h2, lookupA, if_neg h2, ih]
    · rw [if_neg h1]
      simp only at h1
      by_cases h2 : a = k2
      · rw [lookupA, if_pos h2, lookupA, if_pos h2]
        have h3 : ¬ k2 = k := fun hc => h1 (h2.trans hc)
        simp [h3]
      · rw [lookupA, if_neg h2, lookupA, if_neg h2, ih]

/-- Lookup over concatenation: the first list wins. -/
theorem lookupA_append {κ β : Type} [DecidableEq κ] :
    ∀ (f g : List (κ × β)) (t : κ),
      lookupA (f ++ g) t = (lookupA f t).or (lookupA g t) := by
  intro f g t
  induction f with
  | nil => rfl
  | cons e rest ih =>
    obtain ⟨a, b⟩ := e
    rw [List.cons_append, lookupA, lookupA]
    by_cases h : a = t
    · rw [if_pos h, if_pos h]; rfl
    · rw [if_neg h, if_neg h, ih]

/-- Lookup after a Python dict assignment `d[k] = v`. -/
theorem lookupA_setEntry (f : List (String × Json)) (k k2 : String)
    (v : Json) :
    lookupA (setEntry f k v) k2 = if k2 = k then some v else lookupA f k2 := by
  unfold setEntry
  by_cases hc : f.any (fun e => decide (e.1 = k))
  · rw [if_pos hc, lookupA_map_update]
    by_cases h2 : k2 = k
    · rw [if_pos h2]
      subst h2
      have hmem : k2 ∈ keysOf f := by
        obtain ⟨e, he, he2⟩ := List.any_eq_true.mp hc
        have he3 : e.1 = k2 := of_decide_eq_true he2
        rw [← he3]
        exact List.mem_map_of_mem _ he
      obtain ⟨w, hw⟩ :=
        Option.isSome_iff_exists.mp ((lookupA_isSome_iff f k2).mpr hmem)
      rw [hw]
      simp
    · rw [if_neg h2]
      simp [h2]
  · rw [if_neg hc, lookupA_append]
    by_cases h2 : k2 = k
    · rw [if_pos h2]
      subst h2
      have hnone : lookupA f k2 = none := by
        cases hl : lookupA f k2 with
        | none => rfl
        | some w =>
          exfalso
          have hs : (lookupA f k2).isSome = true := by rw [hl]; rfl
          have hmem := (lookupA_isSome_iff f k2).mp hs
          obtain ⟨e, he, he2⟩ := List.mem_map.mp hmem
          exact hc (List.any_eq_true.mpr ⟨e, he, decide_eq_true he2⟩)
      rw [hnone, lookupA, if_pos rfl]
      rfl
    · rw [if_neg h2]
      have hsing : lookupA [(k, v)] k2 = none := by
        rw [lookupA, if_neg (fun hcc => h2 hcc.symm)]
        rfl
      rw [hsing]
      cases lookupA f k2 <;> rfl

/-- `setEntry` keeps every existing key. -/
theorem mem_keysOf_setEntry (f : List (String × Json)) (k : String) (v : Json)
    (k2 : String) (h : k2 ∈ keysOf f) : k2 ∈ keysOf (setEntry f k v) := by
  unfold setEntry
  by_cases hc : f.any (fun e => decide (e.1 = k))
  · rw [if_pos hc]
    rcases List.mem_map.mp h with ⟨e, he, hek⟩
    apply List.mem_map.mpr
    refine ⟨if e.1 = k then (e.1, v) else e, List.mem_map_of_mem _ he, ?_⟩
    by_cases h2 : e.1 = k
    · rw [if_pos h2]; exact hek
    · rw [if_neg h2]; exact hek
  · rw [if_neg hc]
    simp only [keysOf, List.map_append, List.mem_append]
    exact Or.inl h

/-- `setEntry` puts its own key in the key list. -/
theorem self_mem_keysOf_setEntry (f : List (String × Json)) (k : String)
    (v : Json) : k ∈ keysOf (setEntry f k v) := by
  unfold setEntry
  by_cases hc : f.any (fun e => decide (e.1 = k))
  · rw [if_pos hc]
    obtain ⟨e, he, he2⟩ := List.any_eq_true.mp hc
    have he3 : e.1 = k := of_decide_eq_true he2
    apply List.mem_map.mpr
    refine ⟨if e.1 = k then (e.1, v) else e, List.mem_map_of_mem _ he, ?_⟩
    simp [he3]
  · rw [if_neg hc]
    simp [keysOf]

/-- After `d[k] = v`, every entry keyed `k` holds `v`. -/
theorem allAt_setEntry_self (f : List (String × Json)) (k : String)
    (v : Json) : ∀ e ∈ setEntry f k v, e.1 = k → e.2 = v := by
  intro e he hek
  unfold setEntry at he
  by_cases hc : f.any (fun x => decide (x.1 = k))
  · rw [if_pos hc] at he
    rcases List.mem_map.mp he with ⟨x, hx, hxe⟩
    by_cases h2 : x.1 = k
    · rw [if_pos h2] at hxe
      rw [← hxe]
    · rw [if_neg h2] at hxe
      rw [← hxe] at hek
      exact absurd hek h2
  · rw [if_neg hc] at he
    rcases List.mem_append.mp he with hx | hx
    · exfalso
      exact hc (List.any_eq_true.mpr ⟨e, hx, decide_eq_true hek⟩)
    · rw [List.mem_singleton] at hx
      rw [hx]

/-- Assigning a different key does not disturb the entries keyed `k`. -/
theorem allAt_setEntry_other (f : List (String × Json)) (k2 : String)
    (v2 : Json) (k : String) (v : Json) (hne : k2 ≠ k)
    (h : ∀ e ∈ f, e.1 = k → e.2 = v) :
    ∀ e ∈ setEntry f k2 v2, e.1 = k → e.2 = v := by
  intro e he hek
  unfold setEntry at he
  by_cases hc : f.any (fun x => decide (x.1 = k2))
  · rw [if_pos hc] at he
    rcases List.mem_map.mp he with ⟨x, hx, hxe⟩
    by_cases h2 : x.1 = k2
    · rw [if_pos h2] at hxe
      rw [← hxe] at hek
      exact absurd (hek ▸ h2.symm ▸ rfl : k2 = k) hne
    · rw [if_neg h2] at hxe
      rw [← hxe] at hek ⊢
      exact h x hx hek
  · rw [if_neg hc] at he
    rcases List.mem_append.mp he with hx | hx
    · exact h e hx hek
    · rw [List.mem_singleton] at hx
      rw [hx] at hek
      exact absurd hek hne

/-- An update none of whose keys is `k` does not disturb the entries
keyed `k`. -/
theorem allAt_dictUpdate (upd : List (String × Json)) (k : String) (v : Json) :
    ∀ (base : List (String × Json)),
      (∀ p ∈ upd, p.1 ≠ k) → (∀ e ∈ base, e.1 = k → e.2 = v) →
      ∀ e ∈ dictUpdate base upd, e.1 = k → e.2 = v := by
  induction upd with
  | nil => intro base _ h; exact h
  | cons p rest ih =>
    intro base hk h
    have hstep : dictUpdate base (p :: rest) =
        dictUpdate (setEntry base p.1 p.2) rest := rfl
    rw [hstep]
    exact ih (setEntry base p.1 p.2)
      (fun q hq => hk q (List.mem_cons_of_mem p hq))
      (allAt_setEntry_other base p.1 p.2 k v
        (hk p (List.mem_cons_self p rest)) h)

/-- `dictUpdate` keeps every existing key. -/
theorem mem_keysOf_dictUpdate (upd : List (String × Json)) (k : String) :
    ∀ (base : List (String × Json)),
      k ∈ keysOf base → k ∈ keysOf (dictUpdate base upd) := by
  induction upd with
  | nil => intro base h; exact h
  | cons p rest ih =>
    intro base h
    exact ih (setEntry base p.1 p.2) (mem_keysOf_setEntry base p.1 p.2 k h)

/-- Re-assigning a key to the value every entry of that key already
holds changes nothing. -/
theorem setEntry_eq_of_allAt (f : List (String × Json)) (k : String)
    (v : Json) (hmem : k ∈ keysOf f) (h : ∀ e ∈ f, e.1 = k → e.2 = v) :
    setEntry f k v = f := by
  unfold setEntry
  have hc : f.any (fun e => decide (e.1 = k)) = true := by
    rcases List.mem_map.mp hmem with ⟨e, he, hek⟩
    exact List.any_eq_true.mpr ⟨e, he, decide_eq_true hek⟩
  rw [if_pos hc]
  have hid : ∀ e ∈ f, (if e.1 = k then (e.1, v) else e) = e := by
    intro e he
    by_cases h2 : e.1 = k
    · rw [if_pos h2]
      obtain ⟨a, b⟩ := e
      have hb := h (a, b) he h2
      simp only at hb
      rw [hb]
    · rw [if_neg h2]
  rw [List.map_congr_left hid]
  exact List.map_id f

/-- Re-applying a duplicate-free update absorbs into one application. -/
theorem dictUpdate_absorb (upd : List (String × Json)) :
    (upd.map Prod.fst).Nodup →
    ∀ base, dictUpdate (dictUpdate base upd) upd = dictUpdate base upd := by
  induction upd with
  | nil => intro _ base; rfl
  | cons p rest ih =>
    intro hnd base
    rw [List.map_cons, List.nodup_cons] at hnd
    have hstep : ∀ b, dictUpdate b (p :: rest) =
        dictUpdate (setEntry b p.1 p.2) rest := fun b => rfl
    rw [hstep, hstep]
    have hkmem : p.1 ∈ keysOf (dictUpdate (setEntry base p.1 p.2) rest) :=
      mem_keysOf_dictUpdate rest p.1 (setEntry base p.1 p.2)
        (self_mem_keysOf_setEntry base p.1 p.2)
    have hAll : ∀ e ∈ dictUpdate (setEntry base p.1 p.2) rest,
        e.1 = p.1 → e.2 = p.2 :=
      allAt_dictUpdate rest p.1 p.2 (setEntry base p.1 p.2)
        (fun q hq hc => hnd.1 (hc ▸ List.mem_map_of_mem Prod.fst hq))
        (allAt_setEntry_self base p.1 p.2)
    rw [setEntry_eq_of_allAt _ p.1 p.2 hkmem hAll]
    exact ih hnd.2 (setEntry base p.1 p.2)

/-- Updating with keys disjoint from the base appends the update. -/
theorem dictUpdate_disjoint :
    ∀ (upd base : List (String × Json)),
      (∀ q ∈ upd, q.1 ∉ keysOf base) → (upd.map Prod.fst).Nodup →
      dictUpdate base upd = base ++ upd := by
  intro upd
  induction upd with
  | nil => intro base _ _; simp [dictUpdate]
  | cons p rest ih =>
    intro base hdisj hnd
    rw [List.map_cons, List.nodup_cons] at hnd
    have h1 : setEntry base p.1 p.2 = base ++ [p] := by
      unfold setEntry
      have hc : ¬ base.any (fun e => decide (e.1 = p.1)) = true := by
        intro hc
        obtain ⟨e, he, he2⟩ := List.any_eq_true.mp hc
        have he3 : e.1 = p.1 := of_decide_eq_true he2
        exact hdisj p (List.mem_cons_self p rest)
          (he3 ▸ List.mem_map_of_mem Prod.fst he)
      rw [if_neg hc]
    have hstep : dictUpdate base (p :: rest) =
        dictUpdate (setEntry base p.1 p.2) rest := rfl
    rw [hstep, h1, ih (base ++ [p]) ?_ hnd.2]
    · rw [List.append_assoc]
      rfl
    · intro q hq
      simp only [keysOf, List.map_append, List.mem_append]
      rintro (hc | hc)
      · exact hdisj q (List.mem_cons_of_mem p hq) hc
      · simp only [List.map_cons, List.map_nil, List.mem_singleton] at hc
        exact hnd.1 (hc ▸ List.mem_map_of_mem Prod.fst hq)

/-- A duplicate-free dict updated with itself is unchanged. -/
theorem dictUpdate_self (upd : List (String × Json))
    (hnd : (upd.map Prod.fst).Nodup) : dictUpdate upd upd = upd := by
  have h0 : dictUpdate [] upd = upd := by
    have := dictUpdate_disjoint upd [] (by simp [keysOf]) hnd
    simpa using this
  have h1 := dictUpdate_absorb upd hnd []
  rw [h0] at h1
  exact h1

/-- Characterisation of `pii_masker_func`: the masked text is computed
before Step 4; the store is touched only when the entity map is
non-empty, and a save failure propagates. -/
theorem pii_masker_func_eq (text : List Char)
    (statSpans patternSpans : List Ent) (now : String) (w : WriteOutcome)
    (fs : FS) :
    pii_masker_func text statSpans patternSpans now w fs =
      if (maskRun statSpans patternSpans).entity_map = [] then
        .ok (maskedText text statSpans patternSpans, fs)
      else
        match save_mapping_to_file
            (storeEntries (maskRun statSpans patternSpans).entity_map)
            now w fs with
        | .ok fs2 => .ok (maskedText text statSpans patternSpans, fs2)
        | .error e => .error e := rfl

/-- C6: for every filesystem state whose store file is missing, or
exists but holds content that fails JSON parsing (the `JSONDecodeError`
sense of "malformed" the code handles), `load_mapping_from_file` returns
the empty mapping `{}` without raising: no error propagates to the
caller for missing or malformed content.  (Content that parses to a
JSON value that is not an object is a different case: there
`data.get("mappings", {})` raises `AttributeError`, which the function
does not catch — visible in the model's `.holds` branch.) -/
theorem C6_load_fails_open (fs : FS)
    (h : fs.store = FileState.absent ∨ fs.store = FileState.malformed) :
    load_mapping_from_file fs = Except.ok (Json.obj []) := by
  obtain ⟨dir, store⟩ := fs
  rcases h with h | h
  · simp only at h
    rw [h]
    rfl
  · simp only at h
    rw [h]
    rfl

/-- Witness for C6: a store file that does not exist. -/
theorem C6_witness :
    load_mapping_from_file ⟨false, FileState.absent⟩ =
      Except.ok (Json.obj []) :=
  C6_load_fails_open ⟨false, FileState.absent⟩ (Or.inl rfl)

/-- C7 as frozen is refuted below (`C7_counterexample`): Step 4 calls
`save_mapping_to_file(entity_map)` with no `try`/`except` around it and
no logging, so a disk or permission failure while writing the store
propagates out of `pii_masker_func`.  Amended claim: if persisting the
entity map fails, the exception propagates — whenever the per-call
entity map is non-empty, the call under a failing write environment
raises `OSError` instead of returning the masked text. -/
theorem C7_persist_failure_propagates (text : List Char)
    (statSpans patternSpans : List Ent) (now : String) (fs : FS)
    (h : (maskRun statSpans patternSpans).entity_map ≠ []) :
    pii_masker_func text statSpans patternSpans now WriteOutcome.ioError fs =
      Except.error PyErr.osError := by
  rw [pii_masker_func_eq, if_neg h]
  rfl

/-- Witness for C7's amended theorem: one CARDINAL span, failing disk. -/
theorem C7_witness :
    (maskRun [⟨['1','2'], "CARDINAL", 0, 2⟩] []).entity_map ≠ [] ∧
    pii_masker_func ['1','2'] [⟨['1','2'], "CARDINAL", 0, 2⟩] [] "t"
        WriteOutcome.ioError ⟨false, FileState.absent⟩ =
      Except.error PyErr.osError :=
  ⟨by decide,
    C7_persist_failure_propagates ['1','2'] [⟨['1','2'], "CARDINAL", 0, 2⟩]
      [] "t" ⟨false, FileState.absent⟩ (by decide)⟩

/-- Counterexample to C7 as frozen: with the same input, a failing write
environment makes `pii_masker_func` raise `OSError` — the masked text is
not returned to the caller, contradicting "a persistence failure never
causes pii_masker_func to raise". -/
theorem C7_counterexample :
    pii_masker_func ['1','2'] [⟨['1','2'], "CARDINAL", 0, 2⟩] [] "t"
        WriteOutcome.ioError ⟨false, FileState.absent⟩ =
      Except.error PyErr.osError := by
  rfl

/-- Re-saving the same entity map over a store that already absorbed it:
the `"mappings"` object is unchanged and the timestamp is refreshed. -/
theorem save_mapping_absorbed (em : List (String × String)) (now2 : String)
    (dir : Bool) (fields1 M1 : List (String × Json))
    (hlk : lookupA fields1 "mappings" = some (Json.obj M1))
    (habs : dictUpdate M1 (jsonOfMap em) = M1) :
    save_mapping_to_file em now2 WriteOutcome.ok ⟨dir, .holds (.obj fields1)⟩ =
      Except.ok ⟨true, .holds (.obj
        (setEntry (setEntry fields1 "mappings" (Json.obj M1))
          "timestamp" (Json.str now2)))⟩ := by
  simp [save_mapping_to_file, hlk, habs]

/-- C8: calling persist twice in succession with the same entity map
(whose keys, coming from a Python dict, are duplicate-free) leaves the
store's `"mappings"` object exactly as one application leaves it — no
entry is duplicated or changed — while the `"timestamp"` is refreshed to
the second call's time. -/
theorem C8_persist_idempotent (em : List (String × String))
    (now1 now2 : String) (fs fs1 fs2 : FS)
    (hnd : (em.map Prod.fst).Nodup)
    (h1 : save_mapping_to_file em now1 WriteOutcome.ok fs = Except.ok fs1)
    (h2 : save_mapping_to_file em now2 WriteOutcome.ok fs1 = Except.ok fs2) :
    storeMappings fs2 = storeMappings fs1 ∧
    storeTimestamp fs2 = some (Json.str now2) := by
  have hndJ : ((jsonOfMap em).map Prod.fst).Nodup := by
    have hk : (jsonOfMap em).map Prod.fst = em.map Prod.fst := by
      simp [jsonOfMap]
    rw [hk]
    exact hnd
  have hconc : ∀ (fields1 M1 : List (String × Json)),
      fs1 = ⟨true, .holds (.obj fields1)⟩ →
      lookupA fields1 "mappings" = some (Json.obj M1) →
      dictUpdate M1 (jsonOfMap em) = M1 →
      (storeMappings fs2 = storeMappings fs1 ∧
        storeTimestamp fs2 = some (Json.str now2)) := by
    intro fields1 M1 hfs1 hlk habs
    subst hfs1
    rw [save_mapping_absorbed em now2 true fields1 M1 hlk habs] at h2
    injection h2 with h2'
    subst h2'
    constructor
    · show lookupA (setEntry (setEntry fields1 "mappings" (Json.obj M1))
          "timestamp" (Json.str now2)) "mappings" = lookupA fields1 "mappings"
      rw [lookupA_setEntry, if_neg (by decide), lookupA_setEntry,
        if_pos rfl, hlk]
    · show lookupA (setEntry (setEntry fields1 "mappings" (Json.obj M1))
          "timestamp" (Json.str now2)) "timestamp" = some (Json.str now2)
      rw [lookupA_setEntry, if_pos rfl]
  obtain ⟨dir, store⟩ := fs
  cases store with
  | absent =>
    have heq : save_mapping_to_file em now1 WriteOutcome.ok ⟨dir, .absent⟩ =
        Except.ok ⟨true, .holds (.obj [("timestamp", Json.str now1),
          ("mappings", Json.obj (jsonOfMap em))])⟩ := rfl
    rw [heq] at h1
    injection h1 with h1'
    refine hconc [("timestamp", Json.str now1),
      ("mappings", Json.obj (jsonOfMap em))] (jsonOfMap em) h1'.symm ?_
      (dictUpdate_self _ hndJ)
    rw [lookupA, if_neg (by decide), lookupA, if_pos rfl]
  | malformed =>
    have heq : save_mapping_to_file em now1 WriteOutcome.ok ⟨dir, .malformed⟩ =
        Except.ok ⟨true, .holds (.obj [("timestamp", Json.str now1),
          ("mappings", Json.obj (jsonOfMap em))])⟩ := rfl
    rw [heq] at h1
    injection h1 with h1'
    refine hconc [("timestamp", Json.str now1),
      ("mappings", Json.obj (jsonOfMap em))] (jsonOfMap em) h1'.symm ?_
      (dictUpdate_self _ hndJ)
    rw [lookupA, if_neg (by decide), lookupA, if_pos rfl]
  | holds j =>
    cases j with
    | obj fields =>
      cases hm : lookupA fields "mappings" with
      | none =>
        have heq : save_mapping_to_file em now1 WriteOutcome.ok
            ⟨dir, .holds (.obj fields)⟩ =
            Except.ok ⟨true, .holds (.obj [("timestamp", Json.str now1),
              ("mappings", Json.obj (jsonOfMap em))])⟩ := by
          simp [save_mapping_to_file, hm]
        rw [heq] at h1
        injection h1 with h1'
        refine hconc [("timestamp", Json.str now1),
          ("mappings", Json.obj (jsonOfMap em))] (jsonOfMap em) h1'.symm ?_
          (dictUpdate_self _ hndJ)
        rw [lookupA, if_neg (by decide), lookupA, if_pos rfl]
      | some jv =>
        cases jv with
        | obj M =>
          have heq : save_mapping_to_file em now1 WriteOutcome.ok
              ⟨dir, .holds (.obj fields)⟩ =
              Except.ok ⟨true, .holds (.obj (setEntry (setEntry fields
                "mappings" (Json.obj (dictUpdate M (jsonOfMap em))))
                "timestamp" (Json.str now1)))⟩ := by
            simp [save_mapping_to_file, hm]
          rw [heq] at h1
          injection h1 with h1'
          refine hconc (setEntry (setEntry fields "mappings"
              (Json.obj (dictUpdate M (jsonOfMap em))))
              "timestamp" (Json.str now1))
            (dictUpdate M (jsonOfMap em)) h1'.symm ?_
            (dictUpdate_absorb (jsonOfMap em) hndJ M)
          rw [lookupA_setEntry, if_neg (by decide), lookupA_setEntry,
            if_pos rfl]
        | arr a => exact absurd h1 (by simp [save_mapping_to_file, hm])
        | str s => exact absurd h1 (by simp [save_mapping_to_file, hm])
        | num n => exact absurd h1 (by simp [save_mapping_to_file, hm])
        | jbool b => exact absurd h1 (by simp [save_mapping_to_file, hm])
        | null => exact absurd h1 (by simp [save_mapping_to_file, hm])
    | arr a => exact absurd h1 (by simp [save_mapping_to_file])
    | str s => exact absurd h1 (by simp [save_mapping_to_file])
    | num n => exact absurd h1 (by simp [save_mapping_to_file])
    | jbool b => exact absurd h1 (by simp [save_mapping_to_file])
    | null => exact absurd h1 (by simp [save_mapping_to_file])

/-- Witness for C8: saving `{"a": "[X_1]"}` twice over an initially
absent store; the `"mappings"` object after the second save equals the
one after the first, and the timestamp holds the second call's time. -/
theorem C8_witness :
    storeMappings ⟨true, .holds (.obj [("timestamp", Json.str "t2"),
        ("mappings", Json.obj [("a", Json.str "[X_1]")])])⟩ =
      storeMappings ⟨true, .holds (.obj [("timestamp", Json.str "t1"),
        ("mappings", Json.obj [("a", Json.str "[X_1]")])])⟩ ∧
    storeTimestamp ⟨true, .holds (.obj [("timestamp", Json.str "t2"),
        ("mappings", Json.obj [("a", Json.str "[X_1]")])])⟩ =
      some (Json.str "t2") :=
  C8_persist_idempotent [("a", "[X_1]")] "t1" "t2" ⟨false, .absent⟩
    ⟨true, .holds (.obj [("timestamp", Json.str "t1"),
      ("mappings", Json.obj [("a", Json.str "[X_1]")])])⟩
    ⟨true, .holds (.obj [("timestamp", Json.str "t2"),
      ("mappings", Json.obj [("a", Json.str "[X_1]")])])⟩
    (by decide) (by rfl) (by rfl)

/-- Whenever a masking call returns, the text it returns is the pure
function `maskedText` of the detector inputs alone. -/
theorem pii_ok_text (text : List Char) (statSpans patternSpans : List Ent)
    (now : String) (w : WriteOutcome) (fs : FS) (r : List Char × FS)
    (h : pii_masker_func text statSpans patternSpans now w fs = .ok r) :
    r.1 = maskedText text statSpans patternSpans := by
  rw [pii_masker_func_eq] at h
  by_cases hmap : (maskRun statSpans patternSpans).entity_map = []
  · rw [if_pos hmap] at h
    injection h with h2
    rw [← h2]
  · rw [if_neg hmap] at h
    cases hs : save_mapping_to_file
        (storeEntries (maskRun statSpans patternSpans).entity_map)
        now w fs with
    | ok f2 =>
      rw [hs] at h
      injection h with h2
      rw [← h2]
    | error e =>
      rw [hs] at h
      exact absurd h (by simp)

/-- C9 as frozen is refuted below (`C9_counterexample`): a store whose
content is valid JSON but not an object makes the uncaught save path
raise `TypeError`, so whether the call returns at all depends on the
store's contents.  Amended claim: `load_mapping_from_file` is never
invoked during masking and the per-label counters start at 0
(`initMaskState` uses `zeroCounter`), so the masked text and the
allocated placeholders are the pure functions `maskedText` and `maskRun`
of the input text and detector outputs alone, taking no filesystem
input: whenever two calls on the same inputs return — under any two
store contents and write environments — they return the same masked
text. -/
theorem C9_store_noninterference (text : List Char)
    (statSpans patternSpans : List Ent) (now : String)
    (w1 w2 : WriteOutcome) (fs1 fs2 : FS) (r1 r2 : List Char × FS)
    (h1 : pii_masker_func text statSpans patternSpans now w1 fs1 = .ok r1)
    (h2 : pii_masker_func text statSpans patternSpans now w2 fs2 = .ok r2) :
    r1.1 = maskedText text statSpans patternSpans ∧
    r2.1 = maskedText text statSpans patternSpans ∧ r1.1 = r2.1 := by
  have e1 := pii_ok_text text statSpans patternSpans now w1 fs1 r1 h1
  have e2 := pii_ok_text text statSpans patternSpans now w2 fs2 r2 h2
  exact ⟨e1, e2, e1.trans e2.symm⟩

/-- Witness for C9's amended theorem: the same call over an absent store
and over a corrupt (unparseable) store returns the same masked text. -/
theorem C9_witness :
    pii_masker_func ['1','2'] [⟨['1','2'], "CARDINAL", 0, 2⟩] [] "t"
        WriteOutcome.ok ⟨false, FileState.absent⟩ =
      Except.ok (maskedText ['1','2'] [⟨['1','2'], "CARDINAL", 0, 2⟩] [],
        ⟨true, .holds (.obj [("timestamp", Json.str "t"),
          ("mappings", Json.obj [("12", Json.str "[CARDINAL_1]")])])⟩) ∧
    (maskedText ['1','2'] [⟨['1','2'], "CARDINAL", 0, 2⟩] [],
        (⟨true, .holds (.obj [("timestamp", Json.str "t"),
          ("mappings", Json.obj [("12", Json.str "[CARDINAL_1]")])])⟩ : FS)).1
      = maskedText ['1','2'] [⟨['1','2'], "CARDINAL", 0, 2⟩] [] := by
  constructor
  · rfl
  · exact (C9_store_noninterference ['1','2']
      [⟨['1','2'], "CARDINAL", 0, 2⟩] [] "t" WriteOutcome.ok WriteOutcome.ok
      ⟨false, FileState.absent⟩ ⟨false, FileState.malformed⟩ _ _
      (by rfl) (by rfl)).1

/-- Counterexample to C9 as frozen: the same text and statistical output
over an absent store returns the masked text, but over a store holding
the valid-JSON non-object `[]` the call raises (`TypeError` at
`existing_data["mappings"]`), so the returned masked text is not
independent of the store file's contents. -/
theorem C9_counterexample :
    resultText (pii_masker_func ['1','2'] [⟨['1','2'], "CARDINAL", 0, 2⟩]
        [] "t" WriteOutcome.ok ⟨false, FileState.absent⟩) ≠
      resultText (pii_masker_func ['1','2'] [⟨['1','2'], "CARDINAL", 0, 2⟩]
        [] "t" WriteOutcome.ok ⟨false, FileState.holds (Json.arr [])⟩) := by
  decide

/-- C10: when a masking call detects no entities (the per-call entity
map ends empty), Step 4's `if entity_map:` guard skips the save
entirely: the call returns the masked text with the filesystem state
untouched — no store file written, no `mappings` directory created, an
existing store's mappings and timestamp unchanged. -/
theorem C10_empty_map_leaves_store (text : List Char)
    (statSpans patternSpans : List Ent) (now : String) (w : WriteOutcome)
    (fs : FS) (h : (maskRun statSpans patternSpans).entity_map = []) :
    pii_masker_func text statSpans patternSpans now w fs =
      Except.ok (maskedText text statSpans patternSpans, fs) := by
  rw [pii_masker_func_eq, if_pos h]

/-- Witness for C10: no detector output, a pre-existing store: the state
comes back exactly as it was. -/
theorem C10_witness :
    (maskRun [] []).entity_map = [] ∧
    pii_masker_func ['h','i'] [] [] "t" WriteOutcome.ok
        ⟨true, FileState.holds (Json.obj [])⟩ =
      Except.ok (maskedText ['h','i'] [] [],
        ⟨true, FileState.holds (Json.obj [])⟩) :=
  ⟨rfl, C10_empty_map_leaves_store ['h','i'] [] [] "t" WriteOutcome.ok
    ⟨true, FileState.holds (Json.obj [])⟩ rfl⟩
